import Mathlib

/-!
Shallow embedding of the visual detection pipeline of `src/backend/src/detect.rs`
and the fixed-capacity container of `src/backend/src/array.rs`.

Machine integers (`i32`, `usize`) are modelled as `ℤ` / `ℕ` (all values involved
are far from the 32/64-bit overflow boundaries), and `f32`/`f64` scores are
modelled as `ℚ`: the claims under verification only compare scores against
thresholds and against each other, so an exact ordered field is a faithful model
of those comparisons.  Fallible operations return `Except`/`Option`; `Option`
additionally models Rust panics (`unwrap` on an OpenCV error, failed `assert!`),
with `none` standing for a panic.
-/

namespace MapleBot

/-- OpenCV `Point`: integer `(x, y)`. -/
structure Point where
  x : ℤ
  y : ℤ
deriving DecidableEq

/-- OpenCV `Size`: integer `(width, height)`. -/
structure Size where
  width : ℤ
  height : ℤ
deriving DecidableEq

/-- OpenCV `Rect`: integer `(x, y, width, height)`. -/
structure Rect where
  x : ℤ
  y : ℤ
  width : ℤ
  height : ℤ
deriving DecidableEq

/-- `Point + Point` (OpenCV `operator+`). -/
def Point.add (a b : Point) : Point := ⟨a.x + b.x, a.y + b.y⟩

/-- `Point::from_size` turns a `Size` into a `Point`. -/
def Point.from_size (s : Size) : Point := ⟨s.width, s.height⟩

/-- `Rect::tl()`: the top-left corner. -/
def Rect.tl (r : Rect) : Point := ⟨r.x, r.y⟩

/-- `Rect::br()`: the bottom-right corner `(x + width, y + height)`. -/
def Rect.br (r : Rect) : Point := ⟨r.x + r.width, r.y + r.height⟩

/-- `Rect::area()`: `width * height`. -/
def Rect.area (r : Rect) : ℤ := r.width * r.height

/-- `Rect::from_points(p1, p2)` (OpenCV): top-left is the componentwise `min`,
size is the componentwise absolute difference. -/
def Rect.from_points (p1 p2 : Point) : Rect :=
  ⟨min p1.x p2.x, min p1.y p2.y, max p1.x p2.x - min p1.x p2.x,
    max p1.y p2.y - min p1.y p2.y⟩

/-- OpenCV `Rect` intersection (`operator&`): intersect the two half-open boxes
and normalize an empty intersection to the all-zero `Rect`. -/
def Rect.inter (a b : Rect) : Rect :=
  let x1 := max a.x b.x
  let y1 := max a.y b.y
  let w := min (a.x + a.width) (b.x + b.width) - x1
  let h := min (a.y + a.height) (b.y + b.height) - y1
  if w ≤ 0 ∨ h ≤ 0 then ⟨0, 0, 0, 0⟩ else ⟨x1, y1, w, h⟩

/-- Containment of rectangles, reading each as the box `[x, x+width] × [y, y+height]`. -/
def Rect.containedIn (a b : Rect) : Prop :=
  b.x ≤ a.x ∧ b.y ≤ a.y ∧ a.x + a.width ≤ b.x + b.width ∧
    a.y + a.height ≤ b.y + b.height

instance (a b : Rect) : Decidable (a.containedIn b) := by
  unfold Rect.containedIn; infer_instance

/-- A rectangle lies within an image of the given size. -/
def Rect.insideImage (r : Rect) (s : Size) : Prop :=
  0 ≤ r.x ∧ 0 ≤ r.y ∧ r.x + r.width ≤ s.width ∧ r.y + r.height ≤ s.height

instance (r : Rect) (s : Size) : Decidable (r.insideImage s) := by
  unfold Rect.insideImage; infer_instance

/-- Rust `f32 as i32` / `f64 as i32`: truncation toward zero. -/
def truncQ (q : ℚ) : ℤ := q.num / q.den

/-! ## Template matcher (`detect_template_multiple`, `match_one`)

The score map produced by `match_template` (`TM_CCOEFF_NORMED`) is taken as
input, as a row-major grid of scores; the claims concern what the code does
with the score map, not the cross-correlation arithmetic itself. -/

/-- A score map: a row-major grid of correlation scores. -/
def ScoreMap := List (List ℚ)

/-- All cells of a score map with their coordinates, in row-major scan order:
a cell at row `r`, column `c` has location `Point.mk c r`. -/
def ScoreMap.cells (m : ScoreMap) : List (Point × ℚ) :=
  (m.enum.map fun pr => pr.2.enum.map fun pc => (Point.mk pc.1 pr.1, pc.2)).flatten

/-- `min_max_loc` restricted to what `match_one` uses: the maximum value and
the location of its first occurrence in row-major scan order (OpenCV updates
the maximum only on a strictly greater value).  `none` models the OpenCV error
(and hence the `unwrap` panic) on an empty map. -/
def ScoreMap.maxLoc (m : ScoreMap) : Option (ℚ × Point) :=
  match m.cells with
  | [] => none
  | c :: cs =>
    some (cs.foldl (fun acc cell => if cell.2 > acc.1 then (cell.2, cell.1) else acc)
      (c.2, c.1))

/-- `match_one` of `detect_template_multiple`: find the global maximum of the
score map; below `threshold`, fail carrying that best score; otherwise return
the rectangle from `loc + offset` with the template's size, plus the score. -/
def match_one (result : ScoreMap) (offset : Point) (template_size : Size)
    (threshold : ℚ) : Option (Except ℚ (Rect × ℚ)) :=
  match result.maxLoc with
  | none => none
  | some (score, loc) =>
    if score < threshold then some (Except.error score)
    else
      let tl := loc.add offset
      let br := tl.add (Point.from_size template_size)
      some (Except.ok (Rect.from_points tl br, score))

/-- Whether a point lies in the half-open pixel box of a rectangle. -/
def Rect.memB (r : Rect) (p : Point) : Bool :=
  decide (r.x ≤ p.x ∧ p.x < r.x + r.width ∧ r.y ≤ p.y ∧ p.y < r.y + r.height)

/-- Zeroing the score-map sub-region covering an in-bounds `rect`
(`zeros.copy_to(&mut result.roi_mut(rect))`): every cell whose coordinates fall
inside `rect` becomes `0`, every other cell is unchanged.  The validity of the
roi itself is asserted by the caller (`detect_loop` below), matching OpenCV:
`roi_mut` errors — and the code's `unwrap` panics — when `rect` does not lie
inside the map. -/
def ScoreMap.zeroRect (m : ScoreMap) (rect : Rect) : ScoreMap :=
  m.enum.map fun pr =>
    pr.2.enum.map fun pc =>
      if rect.memB (Point.mk pc.1 pr.1) then 0 else pc.2

/-- The number of rows of the score-map `Mat`. -/
def ScoreMap.rowsN (m : ScoreMap) : ℕ := List.length m

/-- The number of columns of the score-map `Mat` (every row of a `Mat` has
this same length). -/
def ScoreMap.colsN (m : ScoreMap) : ℕ := (m.headD []).length

/-- OpenCV's validity assertion for `result.roi_mut(rect)`:
`Mat::operator()(Rect)` requires `0 <= x`, `0 <= width`,
`x + width <= cols`, and likewise vertically; otherwise it errors and the
code's `unwrap` panics. -/
def roi_in_bounds (m : ScoreMap) (rect : Rect) : Bool :=
  decide (0 ≤ rect.x ∧ 0 ≤ rect.width ∧ rect.x + rect.width ≤ (m.colsN : ℤ) ∧
    0 ≤ rect.y ∧ 0 ≤ rect.height ∧ rect.y + rect.height ≤ (m.rowsN : ℤ))

/-- The `for _ in 0..max_matches` loop of `detect_template_multiple`: on a
failed match push the error and continue with the score map unchanged; on a
successful match zero the matched rectangle's sub-region and continue — unless
the rectangle (which has the full template size) exceeds the score map, in
which case `result.roi_mut(rect).unwrap()` panics (`none`). -/
def detect_loop (result : ScoreMap) (offset : Point) (template_size : Size)
    (threshold : ℚ) : ℕ → Option (List (Except ℚ (Rect × ℚ)))
  | 0 => some []
  | n + 1 =>
    match match_one result offset template_size threshold with
    | none => none
    | some (Except.error e) =>
      (detect_loop result offset template_size threshold n).map
        fun rest => Except.error e :: rest
    | some (Except.ok (rect, score)) =>
      if roi_in_bounds result rect then
        (detect_loop (result.zeroRect rect) offset template_size threshold n).map
          fun rest => Except.ok (rect, score) :: rest
      else
        none

/-- `detect_template_multiple`, starting from the computed score map:
`max_matches` is clamped up to `1`; a single match short-circuits to one
`match_one` call, otherwise the suppression loop runs. -/
def detect_template_multiple (result : ScoreMap) (offset : Point)
    (template_size : Size) (threshold : ℚ) (max_matches : ℕ) :
    Option (List (Except ℚ (Rect × ℚ))) :=
  let mm := max max_matches 1
  if mm = 1 then
    (match_one result offset template_size threshold).map fun r => [r]
  else
    detect_loop result offset template_size threshold mm

/-- The fold inside `ScoreMap.maxLoc` returns a pair that is either the initial
accumulator or one of the scanned cells, and whose score bounds the accumulator
and every scanned cell from above. -/
theorem maxLoc_fold_spec (l : List (Point × ℚ)) (acc : ℚ × Point) :
    (l.foldl (fun acc cell => if cell.2 > acc.1 then (cell.2, cell.1) else acc) acc = acc ∨
      ∃ c ∈ l, l.foldl (fun acc cell => if cell.2 > acc.1 then (cell.2, cell.1) else acc) acc
        = (c.2, c.1)) ∧
    acc.1 ≤ (l.foldl (fun acc cell => if cell.2 > acc.1 then (cell.2, cell.1) else acc) acc).1 ∧
    ∀ c ∈ l, c.2 ≤
      (l.foldl (fun acc cell => if cell.2 > acc.1 then (cell.2, cell.1) else acc) acc).1 := by
  induction l generalizing acc with
  | nil => simp
  | cons hd tl ih =>
    simp only [List.foldl_cons]
    rcases ih (if hd.2 > acc.1 then (hd.2, hd.1) else acc) with ⟨hmem, hle, hall⟩
    refine ⟨?_, ?_, ?_⟩
    · rcases hmem with hmem | ⟨c, hc, hmem⟩
      · by_cases h : hd.2 > acc.1
        · refine Or.inr ⟨hd, List.mem_cons_self _ _, ?_⟩
          rw [hmem]; simp [h]
        · refine Or.inl ?_
          rw [hmem]; simp [h]
      · exact Or.inr ⟨c, List.mem_cons_of_mem _ hc, hmem⟩
    · refine le_trans ?_ hle
      by_cases h : hd.2 > acc.1 <;> simp [h]
      exact le_of_lt h
    · intro c hc
      rcases List.mem_cons.mp hc with rfl | hc
      · refine le_trans ?_ hle
        by_cases h : c.2 > acc.1 <;> simp [h]
        exact le_of_not_lt h
      · exact hall c hc

/-- `ScoreMap.maxLoc` really returns a global maximum of the score map,
together with one of its locations. -/
theorem maxLoc_spec (m : ScoreMap) (score : ℚ) (loc : Point)
    (h : m.maxLoc = some (score, loc)) :
    (loc, score) ∈ m.cells ∧ ∀ c ∈ m.cells, c.2 ≤ score := by
  unfold ScoreMap.maxLoc at h
  rcases hm : m.cells with _ | ⟨c, cs⟩
  · rw [hm] at h; simp at h
  · rw [hm] at h
    simp only [Option.some.injEq] at h
    rcases maxLoc_fold_spec cs (c.2, c.1) with ⟨hmem, hle, hall⟩
    constructor
    · rcases hmem with hmem | ⟨d, hd, hmem⟩
      · rw [hmem] at h
        have hc : c = (loc, score) := by
          cases c; simp at h; simp [h.1, h.2]
        rw [← hc]; exact List.mem_cons_self _ _
      · rw [hmem] at h
        have hd' : d = (loc, score) := by
          cases d; simp at h; simp [h.1, h.2]
        rw [← hd']; exact List.mem_cons_of_mem _ hd
    · intro d hd
      rcases List.mem_cons.mp hd with rfl | hd
      · calc d.2 ≤ _ := hle
          _ = score := by rw [h]
      · calc d.2 ≤ _ := hall d hd
          _ = score := by rw [h]

/-- C1: for a single-match template query (`max_matches ≤ 1`), the operation
locates the global maximum `score` of the score map at location `loc`; if
`score` is below `threshold` it returns the single entry `NotFound score`,
otherwise the single entry `(Rect (loc + offset) template_size, score)`. -/
theorem c1_single_match_global_max (result : ScoreMap) (offset : Point)
    (template_size : Size) (threshold : ℚ) (max_matches : ℕ) (score : ℚ) (loc : Point)
    (hmm : max_matches ≤ 1) (hmax : result.maxLoc = some (score, loc))
    (hw : 0 ≤ template_size.width) (hh : 0 ≤ template_size.height) :
    ((loc, score) ∈ result.cells ∧ ∀ c ∈ result.cells, c.2 ≤ score) ∧
    detect_template_multiple result offset template_size threshold max_matches =
      some [if score < threshold then Except.error score
            else Except.ok
              (⟨loc.x + offset.x, loc.y + offset.y, template_size.width,
                template_size.height⟩, score)] := by
  refine ⟨maxLoc_spec result score loc hmax, ?_⟩
  have h1 : max max_matches 1 = 1 := by omega
  unfold detect_template_multiple
  simp only [h1, if_pos rfl]
  unfold match_one
  rw [hmax]
  by_cases hlt : score < threshold
  · simp [hlt]
  · simp only [hlt, if_false, Option.map_some']
    have hrect : Rect.from_points (loc.add offset)
        ((loc.add offset).add (Point.from_size template_size)) =
        ⟨loc.x + offset.x, loc.y + offset.y, template_size.width, template_size.height⟩ := by
      unfold Rect.from_points Point.add Point.from_size
      simp only
      congr 1 <;> omega
    rw [hrect]
    simp

/-- Witness for C1 at a concrete score map: the map `[[3/4, 1/2]]` has global
maximum `3/4` at `(0, 0)` and a query with threshold `2/3` returns the match. -/
theorem c1_witness :
    ((⟨0, 0⟩, mkRat 3 4) ∈ ScoreMap.cells [[mkRat 3 4, mkRat 1 2]] ∧
      ∀ c ∈ ScoreMap.cells [[mkRat 3 4, mkRat 1 2]], c.2 ≤ mkRat 3 4) ∧
    detect_template_multiple [[mkRat 3 4, mkRat 1 2]] ⟨1, 2⟩ ⟨5, 6⟩ (mkRat 2 3) 1 =
      some [if mkRat 3 4 < mkRat 2 3 then Except.error (mkRat 3 4)
            else Except.ok (⟨0 + 1, 0 + 2, 5, 6⟩, mkRat 3 4)] :=
  c1_single_match_global_max [[mkRat 3 4, mkRat 1 2]] ⟨1, 2⟩ ⟨5, 6⟩ (mkRat 2 3) 1
    (mkRat 3 4) ⟨0, 0⟩ (by decide) (by decide) (by decide) (by decide)

/-- The cell of a score map at (row, col), if present. -/
def cellAt (m : ScoreMap) (row col : ℕ) : Option ℚ :=
  (show List (List ℚ) from m)[row]?.bind fun l => l[col]?

/-- C2 counterexample: on the score map `[[1/2]]` with threshold `3/4` and
`max_matches = 2`, the first attempt's best score `1/2` is below the threshold,
yet the operation does not stop after appending one `NotFound` entry: it keeps
attempting and returns one `NotFound` entry per remaining attempt, so the list
has two `NotFound` entries instead of the claimed single one. -/
theorem c2_counterexample :
    match_one [[mkRat 1 2]] ⟨0, 0⟩ ⟨1, 1⟩ (mkRat 3 4) =
      some (Except.error (mkRat 1 2)) ∧
    detect_template_multiple [[mkRat 1 2]] ⟨0, 0⟩ ⟨1, 1⟩ (mkRat 3 4) 2 =
      some [Except.error (mkRat 1 2), Except.error (mkRat 1 2)] :=
  ⟨rfl, rfl⟩

/-- Unfolding the suppression loop when the next match fails (min_max_loc error). -/
theorem detect_loop_succ_panic (result : ScoreMap) (offset : Point) (tsize : Size)
    (threshold : ℚ) (n : ℕ)
    (h : match_one result offset tsize threshold = none) :
    detect_loop result offset tsize threshold (n + 1) = none := by
  have hd : detect_loop result offset tsize threshold (n + 1) =
      match match_one result offset tsize threshold with
      | none => none
      | some (Except.error e) =>
        (detect_loop result offset tsize threshold n).map
          fun rest => Except.error e :: rest
      | some (Except.ok (rect, score)) =>
        if roi_in_bounds result rect then
          (detect_loop (result.zeroRect rect) offset tsize threshold n).map
            fun rest => Except.ok (rect, score) :: rest
        else
          none := rfl
  rw [hd, h]

/-- Unfolding the suppression loop when the next match misses the threshold. -/
theorem detect_loop_succ_err (result : ScoreMap) (offset : Point) (tsize : Size)
    (threshold : ℚ) (n : ℕ) (e : ℚ)
    (h : match_one result offset tsize threshold = some (Except.error e)) :
    detect_loop result offset tsize threshold (n + 1) =
      (detect_loop result offset tsize threshold n).map
        fun rest => Except.error e :: rest := by
  have hd : detect_loop result offset tsize threshold (n + 1) =
      match match_one result offset tsize threshold with
      | none => none
      | some (Except.error e) =>
        (detect_loop result offset tsize threshold n).map
          fun rest => Except.error e :: rest
      | some (Except.ok (rect, score)) =>
        if roi_in_bounds result rect then
          (detect_loop (result.zeroRect rect) offset tsize threshold n).map
            fun rest => Except.ok (rect, score) :: rest
        else
          none := rfl
  rw [hd, h]

/-- Unfolding the suppression loop when the next match is accepted and its
rectangle lies within the score map. -/
theorem detect_loop_succ_ok (result : ScoreMap) (offset : Point) (tsize : Size)
    (threshold : ℚ) (n : ℕ) (rect : Rect) (score : ℚ)
    (h : match_one result offset tsize threshold = some (Except.ok (rect, score)))
    (hb : roi_in_bounds result rect = true) :
    detect_loop result offset tsize threshold (n + 1) =
      (detect_loop (result.zeroRect rect) offset tsize threshold n).map
        fun rest => Except.ok (rect, score) :: rest := by
  have hd : detect_loop result offset tsize threshold (n + 1) =
      match match_one result offset tsize threshold with
      | none => none
      | some (Except.error e) =>
        (detect_loop result offset tsize threshold n).map
          fun rest => Except.error e :: rest
      | some (Except.ok (rect, score)) =>
        if roi_in_bounds result rect then
          (detect_loop (result.zeroRect rect) offset tsize threshold n).map
            fun rest => Except.ok (rect, score) :: rest
        else
          none := rfl
  rw [hd, h]
  show (if roi_in_bounds result rect then
      (detect_loop (result.zeroRect rect) offset tsize threshold n).map
        fun rest => Except.ok (rect, score) :: rest
    else none) = _
  rw [if_pos hb]

/-- Unfolding the suppression loop when the next match is accepted but its
template-sized rectangle exceeds the score map: `result.roi_mut(rect)` fails
OpenCV's bounds assertion and the `unwrap` panics. -/
theorem detect_loop_succ_oob (result : ScoreMap) (offset : Point) (tsize : Size)
    (threshold : ℚ) (n : ℕ) (rect : Rect) (score : ℚ)
    (h : match_one result offset tsize threshold = some (Except.ok (rect, score)))
    (hb : roi_in_bounds result rect = false) :
    detect_loop result offset tsize threshold (n + 1) = none := by
  have hd : detect_loop result offset tsize threshold (n + 1) =
      match match_one result offset tsize threshold with
      | none => none
      | some (Except.error e) =>
        (detect_loop result offset tsize threshold n).map
          fun rest => Except.error e :: rest
      | some (Except.ok (rect, score)) =>
        if roi_in_bounds result rect then
          (detect_loop (result.zeroRect rect) offset tsize threshold n).map
            fun rest => Except.ok (rect, score) :: rest
        else
          none := rfl
  rw [hd, h]
  show (if roi_in_bounds result rect then
      (detect_loop (result.zeroRect rect) offset tsize threshold n).map
        fun rest => Except.ok (rect, score) :: rest
    else none) = _
  rw [if_neg (by simp [hb])]

/-- Auxiliary: the suppression loop produces exactly one entry per attempt. -/
theorem detect_loop_length (offset : Point) (tsize : Size) (threshold : ℚ) :
    ∀ (n : ℕ) (result : ScoreMap) (out : List (Except ℚ (Rect × ℚ))),
      detect_loop result offset tsize threshold n = some out → out.length = n := by
  intro n
  induction n with
  | zero => intro result out h; simp [detect_loop] at h; simp [← h]
  | succ n ih =>
    intro result out h
    rcases hm : match_one result offset tsize threshold with _ | r
    · rw [detect_loop_succ_panic result offset tsize threshold n hm] at h
      simp at h
    · rcases r with e | ⟨rect, score⟩
      · rw [detect_loop_succ_err result offset tsize threshold n e hm] at h
        rcases hrest : detect_loop result offset tsize threshold n with _ | rest
        · rw [hrest] at h; simp at h
        · rw [hrest] at h
          simp only [Option.map_some', Option.some.injEq] at h
          rw [← h]
          simp [ih result rest hrest]
      · rcases hb : roi_in_bounds result rect with _ | _
        · rw [detect_loop_succ_oob result offset tsize threshold n rect score hm hb] at h
          simp at h
        · rw [detect_loop_succ_ok result offset tsize threshold n rect score hm hb] at h
          rcases hrest : detect_loop (result.zeroRect rect) offset tsize threshold n
            with _ | rest
          · rw [hrest] at h; simp at h
          · rw [hrest] at h
            simp only [Option.map_some', Option.some.injEq] at h
            rw [← h]
            simp [ih (result.zeroRect rect) rest hrest]

/-- C2 amended: the multi-match loop (i) returns one entry per attempt
(`max(max_matches, 1)` entries in attempt order) whenever it completes,
(ii) once an attempt's best score falls below the threshold, that attempt and
every remaining attempt appends a `NotFound` entry carrying that same best
score — the search does not stop early —, (iii) each accepted match whose
rectangle lies within the score map zeroes that sub-region before the next
search starts, (iv) an accepted match whose template-sized rectangle exceeds
the score map panics (`result.roi_mut(rect).unwrap()` fails OpenCV's bounds
assertion), and (v) the zeroed sub-region covers exactly the cells of the
accepted rectangle. -/
theorem c2_amended_multi_match :
    (∀ (result : ScoreMap) (offset : Point) (tsize : Size) (threshold : ℚ) (mm : ℕ)
        (out : List (Except ℚ (Rect × ℚ))),
        detect_template_multiple result offset tsize threshold mm = some out →
        out.length = max mm 1) ∧
    (∀ (result : ScoreMap) (offset : Point) (tsize : Size) (threshold : ℚ) (n : ℕ) (e : ℚ),
        match_one result offset tsize threshold = some (Except.error e) →
        detect_loop result offset tsize threshold n =
          some (List.replicate n (Except.error e))) ∧
    (∀ (result : ScoreMap) (offset : Point) (tsize : Size) (threshold : ℚ) (n : ℕ)
        (rect : Rect) (score : ℚ),
        match_one result offset tsize threshold = some (Except.ok (rect, score)) →
        roi_in_bounds result rect = true →
        detect_loop result offset tsize threshold (n + 1) =
          (detect_loop (result.zeroRect rect) offset tsize threshold n).map
            fun rest => Except.ok (rect, score) :: rest) ∧
    (∀ (result : ScoreMap) (offset : Point) (tsize : Size) (threshold : ℚ) (n : ℕ)
        (rect : Rect) (score : ℚ),
        match_one result offset tsize threshold = some (Except.ok (rect, score)) →
        roi_in_bounds result rect = false →
        detect_loop result offset tsize threshold (n + 1) = none) ∧
    (∀ (m : ScoreMap) (r : Rect) (row col : ℕ),
        cellAt (m.zeroRect r) row col =
          (cellAt m row col).map fun v =>
            if r.memB ⟨(col : ℤ), (row : ℤ)⟩ then 0 else v) := by
  refine ⟨?_, ?_, ?_, ?_, ?_⟩
  · intro result offset tsize threshold mm out h
    unfold detect_template_multiple at h
    by_cases hmm : max mm 1 = 1
    · have h' : (match_one result offset tsize threshold).map (fun r => [r]) =
          some out := by
        rw [hmm] at h; simpa using h
      rcases hm : match_one result offset tsize threshold with _ | r
      · rw [hm] at h'; simp at h'
      · rw [hm] at h'
        simp only [Option.map_some', Option.some.injEq] at h'
        rw [← h', hmm]
        simp
    · simp only [hmm, if_false] at h
      rw [detect_loop_length offset tsize threshold (max mm 1) result out h]
  · intro result offset tsize threshold n e hm
    induction n with
    | zero => simp [detect_loop]
    | succ n ih =>
      rw [detect_loop_succ_err result offset tsize threshold n e hm, ih]
      simp [List.replicate_succ]
  · intro result offset tsize threshold n rect score hm hb
    exact detect_loop_succ_ok result offset tsize threshold n rect score hm hb
  · intro result offset tsize threshold n rect score hm hb
    exact detect_loop_succ_oob result offset tsize threshold n rect score hm hb
  · intro m r row col
    unfold ScoreMap.zeroRect cellAt
    rcases hrow : (show List (List ℚ) from m)[row]? with _ | l
    · simp [List.getElem?_map, List.getElem?_enum, hrow]
    · simp only [List.getElem?_map, List.getElem?_enum, hrow, Option.map_some',
        Option.bind_some]
      rcases hcol : l[col]? with _ | v
      · simp [List.getElem?_map, List.getElem?_enum, hcol]
      · simp [List.getElem?_map, List.getElem?_enum, hcol]

/-- Witness for C2 amended, applying the failure-persistence part at a concrete
score map: three attempts on `[[1/2]]` against threshold `3/4` produce three
`NotFound` entries all carrying the best score `1/2`. -/
theorem c2_witness :
    detect_loop [[mkRat 1 2]] ⟨0, 0⟩ ⟨1, 1⟩ (mkRat 3 4) 3 =
      some (List.replicate 3 (Except.error (mkRat 1 2))) :=
  c2_amended_multi_match.2.1 [[mkRat 1 2]] ⟨0, 0⟩ ⟨1, 1⟩ (mkRat 3 4) 3 (mkRat 1 2) rfl

/-! ## Minimap locator (`detect_minimap`)

The neural candidate (step 1) and the largest contour's bounding rectangle in
the binarized crop (steps 3–4) are taken as inputs (`bbox`, `contour_local`);
the pixel brightness test `mat.at_2d::<Vec4b>(row, col).iter().all(|v| *v >=
border_threshold)` is abstracted into a predicate `px row col`.  Steps 5–8
(translation, validation, border vote, shrink) are embedded from the code. -/

/-- `⌈a / b⌉` for integers, `b > 0`; models Rust `(x as f32 * c).ceil() as i32`
once the factor `c` is written as the exact fraction `a / b`. -/
def ceilDiv (a b : ℤ) : ℤ := (a + b - 1) / b

/-- `expand_bbox` of `detect_minimap`: expand outward by
`ceil(max(width, height) * 0.008)` pixels per side, clamping the top-left at 0
(the f32 constant `0.008` is modelled as the exact rational `8/1000`). -/
def expand_bbox (bbox : Rect) : Rect :=
  let count := ceilDiv (8 * max bbox.width bbox.height) 1000
  let x := max (bbox.x - count) 0
  let y := max (bbox.y - count) 0
  let x_size := (bbox.x - x) * 2
  let y_size := (bbox.y - y) * 2
  ⟨x, y, bbox.width + x_size, bbox.height + y_size⟩

/-- Steps 5–6 of `detect_minimap`: translate the contour's bounding rectangle
from crop-local to full-image coordinates by the expanded rectangle's top-left,
then require the contour to be contained in the expanded rectangle
(`(bbox & contour) == contour`) with an area difference of at least 1100. -/
def validate_contour (bbox contour_local : Rect) : Option Rect :=
  let ebox := expand_bbox bbox
  let contour := Rect.from_points (contour_local.tl.add ebox.tl)
    (contour_local.br.add ebox.tl)
  if ebox.inter contour = contour ∧ ebox.area - contour.area ≥ 1100 then
    some contour
  else
    none

/-- One column of step 7: count contiguous pixels from the contour's top edge
that pass the brightness test, stopping at the first failure. -/
def count_border_rows (px : ℤ → ℤ → Bool) (bound : Rect) (col : ℤ) : ℕ :=
  ((List.range bound.height.toNat).takeWhile fun i => px (bound.y + i) col).length

/-- Step 7 of `detect_minimap`: sample the columns spanning the middle 80% of
the contour (trimming `width * 0.1`, truncated, off each side; the f32 constant
`0.1` is modelled as the exact fraction `1/10`), count border pixels per
column, and return a most frequent count.  The Rust code tallies the counts in
a `HashMap` and takes a maximal-tally entry, so the tie-break among equally
frequent counts depends on the unspecified iteration order; here the
first-scanned maximal count is taken — every tie-break returns one of the
per-column counts, which is all the containment property depends on. -/
def vote_border (px : ℤ → ℤ → Bool) (bound : Rect) : Option ℕ :=
  let range := Int.tdiv bound.width 10
  let start := bound.x + range
  let stop := bound.x + bound.width - range + 1
  let cols := (List.range (stop - start).toNat).map fun i => start + (i : ℤ)
  let counts := cols.map (count_border_rows px bound)
  counts.argmax fun c => counts.count c

/-- Steps 5–8 of `detect_minimap`: validate the contour, vote the border
thickness, and shrink the contour symmetrically by the voted count. -/
def detect_minimap_geom (bbox contour_local : Rect) (px : ℤ → ℤ → Bool) :
    Option Rect :=
  match validate_contour bbox contour_local with
  | none => none
  | some contour =>
    match vote_border px contour with
    | none => none
    | some count =>
      some ⟨contour.x + count, contour.y + count,
        contour.width - count * 2, contour.height - count * 2⟩

/-- Containment of rectangles is transitive. -/
theorem Rect.containedIn_trans {a b c : Rect} (hab : a.containedIn b)
    (hbc : b.containedIn c) : a.containedIn c := by
  unfold Rect.containedIn at *
  omega

/-- `Rect.from_points` of an ordered pair of corners. -/
theorem from_points_of_le (p1 p2 : Point) (hx : p1.x ≤ p2.x) (hy : p1.y ≤ p2.y) :
    Rect.from_points p1 p2 = ⟨p1.x, p1.y, p2.x - p1.x, p2.y - p1.y⟩ := by
  unfold Rect.from_points
  congr 1 <;> omega

/-- If the OpenCV intersection with `a` leaves a non-degenerate `b` unchanged,
then `b` is contained in `a`. -/
theorem inter_eq_self_contained (a b : Rect) (hbw : 0 < b.width)
    (h : a.inter b = b) : b.containedIn a := by
  unfold Rect.inter at h
  dsimp only at h
  split_ifs at h with hdeg
  · rw [← h] at hbw
    simp at hbw
  · obtain ⟨bx, by', bw, bh⟩ := b
    simp only [Rect.mk.injEq] at h
    unfold Rect.containedIn
    simp only at *
    omega

/-- The validated contour of `detect_minimap` is contained in the expanded
neural-candidate rectangle and keeps the local contour's size. -/
theorem validate_contour_spec (bbox cl contour : Rect)
    (hw : 1 ≤ cl.width) (hh : 1 ≤ cl.height)
    (h : validate_contour bbox cl = some contour) :
    contour.containedIn (expand_bbox bbox) ∧ contour.width = cl.width ∧
      contour.height = cl.height := by
  unfold validate_contour at h
  dsimp only at h
  split_ifs at h with hc
  · obtain ⟨hinter, _⟩ := hc
    have hfp : Rect.from_points (cl.tl.add (expand_bbox bbox).tl)
        (cl.br.add (expand_bbox bbox).tl) =
        ⟨cl.x + (expand_bbox bbox).x, cl.y + (expand_bbox bbox).y,
          cl.width, cl.height⟩ := by
      rw [from_points_of_le]
      · unfold Rect.tl Rect.br Point.add
        simp only
        congr 1 <;> omega
      · unfold Rect.tl Rect.br Point.add
        simp only
        omega
      · unfold Rect.tl Rect.br Point.add
        simp only
        omega
    rw [hfp] at h hinter
    injection h with h
    subst h
    refine ⟨inter_eq_self_contained _ _ (by simpa using hw) hinter, rfl, rfl⟩

/-- C3: for every successful minimap detection, the returned rectangle is the
validated contour shrunk symmetrically on all four sides by the voted border
thickness; it is contained in that contour and hence in the expanded
neural-candidate rectangle of step 2.  (The contour's bounding rectangle in
the binarized crop always has positive size, which is the `1 ≤` hypotheses.) -/
theorem c3_minimap_containment (bbox contour_local : Rect) (px : ℤ → ℤ → Bool)
    (r : Rect) (hw : 1 ≤ contour_local.width) (hh : 1 ≤ contour_local.height)
    (hres : detect_minimap_geom bbox contour_local px = some r) :
    r.containedIn (expand_bbox bbox) ∧
    ∃ (contour : Rect) (count : ℕ),
      validate_contour bbox contour_local = some contour ∧
      vote_border px contour = some count ∧
      r = ⟨contour.x + count, contour.y + count,
        contour.width - count * 2, contour.height - count * 2⟩ ∧
      r.containedIn contour := by
  unfold detect_minimap_geom at hres
  split at hres
  next => exact absurd hres (by simp)
  next contour hval =>
    split at hres
    next => exact absurd hres (by simp)
    next count hvote =>
      injection hres with hres
      have hcont : r.containedIn contour := by
        rw [← hres]
        unfold Rect.containedIn
        simp only
        omega
      obtain ⟨hbig, _, _⟩ := validate_contour_spec bbox contour_local contour hw hh hval
      exact ⟨Rect.containedIn_trans hcont hbig, contour, count, hval, hvote,
        hres.symm, hcont⟩

/-- Witness for C3 at concrete inputs: candidate `(10, 10, 100, 100)` expands
to `(9, 9, 102, 102)`; the local contour `(2, 2, 50, 50)` translates to
`(11, 11, 50, 50)`, passes validation, and with an all-dark border predicate
the voted thickness is 0, returning the contour itself. -/
theorem c3_witness :
    (⟨11, 11, 50, 50⟩ : Rect).containedIn (expand_bbox ⟨10, 10, 100, 100⟩) ∧
    ∃ (contour : Rect) (count : ℕ),
      validate_contour ⟨10, 10, 100, 100⟩ ⟨2, 2, 50, 50⟩ = some contour ∧
      vote_border (fun _ _ => false) contour = some count ∧
      (⟨11, 11, 50, 50⟩ : Rect) = ⟨contour.x + count, contour.y + count,
        contour.width - count * 2, contour.height - count * 2⟩ ∧
      (⟨11, 11, 50, 50⟩ : Rect).containedIn contour :=
  c3_minimap_containment ⟨10, 10, 100, 100⟩ ⟨2, 2, 50, 50⟩ (fun _ _ => false)
    ⟨11, 11, 50, 50⟩ (by decide) (by decide) (by decide)

/-! ## Player detector calibration (`detect_player`)

`detect_player` selects a template (`PLAYER_IDEAL_RATIO` vs
`PLAYER_DEFAULT_RATIO`) and threshold from the process-wide `WAS_IDEAL_RATIO`
flag, runs `detect_template` exactly once, and on failure stores the negated
flag.  The template-matching call on the minimap crop is abstracted into
`attempt`, mapping the chosen variant and threshold to the matcher outcome;
the flag is threaded explicitly as the `Bool` state. -/

/-- The two player-template variants (ideal-scale vs default-scale). -/
inductive PlayerVariant
  | idealScale
  | defaultScale
deriving DecidableEq

/-- The template selected for a given `WAS_IDEAL_RATIO` flag value. -/
def player_template (was_ideal : Bool) : PlayerVariant :=
  if was_ideal then PlayerVariant.idealScale else PlayerVariant.defaultScale

/-- The threshold selected for a given flag value: 0.75 for the ideal-scale
template, 0.6 for the default-scale template. -/
def player_threshold (was_ideal : Bool) : ℚ :=
  if was_ideal then mkRat 3 4 else mkRat 3 5

/-- `detect_player`: one attempt with the currently selected variant; on
failure the flipped flag is stored for future calls.  Returns the result and
the flag value after the call. -/
def detect_player (attempt : PlayerVariant → ℚ → Option Rect) (was_ideal : Bool) :
    Option Rect × Bool :=
  let template := player_template was_ideal
  let threshold := player_threshold was_ideal
  let result := attempt template threshold
  (result, if result.isNone then !was_ideal else was_ideal)

/-- C4: a `detect_player` call attempts detection exactly once, with the
currently selected variant's template and threshold (no in-call retry); a
failing call flips the flag, so the immediately following call queries the
other variant's template and threshold; a successful call leaves the flag
unchanged. -/
theorem c4_calibration_toggle (attempt attempt2 : PlayerVariant → ℚ → Option Rect)
    (s : Bool) :
    (detect_player attempt s).1 = attempt (player_template s) (player_threshold s) ∧
    ((detect_player attempt s).1 = none →
      (detect_player attempt s).2 = !s ∧
      (detect_player attempt2 (detect_player attempt s).2).1 =
        attempt2 (player_template (!s)) (player_threshold (!s))) ∧
    (∀ r : Rect, (detect_player attempt s).1 = some r →
      (detect_player attempt s).2 = s) := by
  refine ⟨rfl, ?_, ?_⟩
  · intro hfail
    unfold detect_player at *
    dsimp only at *
    rw [hfail]
    simp
  · intro r hok
    unfold detect_player at *
    dsimp only at *
    rw [hok]
    simp

/-- Witness for C4: with a concrete always-failing matcher and initial flag
`false` (default-scale), the call flips the flag and the following call
queries the ideal-scale variant. -/
theorem c4_witness :
    (detect_player (fun _ _ => none) false).2 = !false ∧
    (detect_player (fun _ _ => none) (detect_player (fun _ _ => none) false).2).1 =
      (fun (_ : PlayerVariant) (_ : ℚ) => (none : Option Rect)) (player_template (!false))
        (player_threshold (!false)) :=
  (c4_calibration_toggle (fun _ _ => none) (fun _ _ => none) false).2.1 rfl

/-! ## Rune-arrow detector (`detect_rune_arrows`)

The decoded network output rows are the input; each row is
`[x1, y1, x2, y2, confidence, class]`. -/

/-- One decoded output row. -/
structure Pred where
  x1 : ℚ
  y1 : ℚ
  x2 : ℚ
  y2 : ℚ
  conf : ℚ
  cls : ℚ
deriving DecidableEq

/-- Arrow keys (`KeyKind`). -/
inductive KeyKind
  | up
  | down
  | left
  | right
deriving DecidableEq

/-- The rune-arrow detector's error. -/
inductive RuneError
  | countMismatch
deriving DecidableEq

/-- `map_arrow`: interpret `pred[5] as i32` as an arrow key; `none` models the
`unreachable!` panic on any other class id. -/
def map_arrow (p : Pred) : Option KeyKind :=
  match truncQ p.cls with
  | 0 => some KeyKind.up
  | 1 => some KeyKind.down
  | 2 => some KeyKind.left
  | 3 => some KeyKind.right
  | _ => none

/-- `detect_rune_arrows`, from the decoded output rows: keep rows with
confidence at least 0.8; fail with a count mismatch unless exactly 4 rows
survive; sort the survivors ascending by `x1` (Rust `sort_by` is a stable
sort, matched here by insertion sort) and map them to arrows.  The outer
`none` models the `unreachable!` panic inside `map_arrow`. -/
def detect_rune_arrows (rows : List Pred) :
    Option (Except RuneError (List KeyKind)) :=
  let preds := rows.filter fun p => p.conf ≥ mkRat 4 5
  if preds.length ≠ 4 then some (Except.error RuneError.countMismatch)
  else
    match (List.insertionSort (fun a b => a.x1 ≤ b.x1) preds).mapM map_arrow with
    | none => none
    | some arrows => some (Except.ok arrows)

/-- C5: rows with confidence below 0.8 contribute nothing to the call's
outcome; if the number of surviving rows is not exactly 4 the call fails with
the count-mismatch error; and any returned arrow list comes from the 4
surviving rows arranged in ascending order of their left-edge `x1`. -/
theorem c5_rune_arrow_filtering :
    (∀ (xs ys : List Pred) (p : Pred), p.conf < mkRat 4 5 →
      detect_rune_arrows (xs ++ p :: ys) = detect_rune_arrows (xs ++ ys)) ∧
    (∀ rows : List Pred, (rows.filter fun p => p.conf ≥ mkRat 4 5).length ≠ 4 →
      detect_rune_arrows rows = some (Except.error RuneError.countMismatch)) ∧
    (∀ (rows : List Pred) (arrows : List KeyKind),
      detect_rune_arrows rows = some (Except.ok arrows) →
      ∃ ps : List Pred,
        ps.Perm (rows.filter fun p => p.conf ≥ mkRat 4 5) ∧
        List.Sorted (fun a b => a.x1 ≤ b.x1) ps ∧
        ps.length = 4 ∧ ps.mapM map_arrow = some arrows) := by
  refine ⟨?_, ?_, ?_⟩
  · intro xs ys p hp
    have hfilter : (xs ++ p :: ys).filter (fun p => decide (p.conf ≥ mkRat 4 5)) =
        (xs ++ ys).filter (fun p => decide (p.conf ≥ mkRat 4 5)) := by
      simp only [List.filter_append, List.filter_cons]
      have : ¬ (p.conf ≥ mkRat 4 5) := not_le.mpr hp
      simp [this]
    unfold detect_rune_arrows
    rw [hfilter]
  · intro rows hlen
    unfold detect_rune_arrows
    simp only [if_pos hlen]
  · intro rows arrows h
    unfold detect_rune_arrows at h
    dsimp only at h
    split_ifs at h with hlen
    · exact absurd h (by simp)
    · refine ⟨List.insertionSort (fun a b => a.x1 ≤ b.x1)
        (rows.filter fun p => p.conf ≥ mkRat 4 5), ?_, ?_, ?_, ?_⟩
      · exact List.perm_insertionSort _ _
      · haveI : IsTotal Pred (fun a b => a.x1 ≤ b.x1) := ⟨fun a b => le_total a.x1 b.x1⟩
        haveI : IsTrans Pred (fun a b => a.x1 ≤ b.x1) :=
          ⟨fun _ _ _ hab hbc => le_trans hab hbc⟩
        exact List.sorted_insertionSort _ _
      · rw [(List.perm_insertionSort (fun a b : Pred => a.x1 ≤ b.x1)
          (rows.filter fun p => p.conf ≥ mkRat 4 5)).length_eq]
        omega
      · rcases hm : (List.insertionSort (fun a b => a.x1 ≤ b.x1)
            (rows.filter fun p => p.conf ≥ mkRat 4 5)).mapM map_arrow with _ | arrows'
        · rw [hm] at h; simp at h
        · rw [hm] at h
          simp only [Option.some.injEq, Except.ok.injEq] at h
          rw [hm, h]

/-- Witness for C5: an empty row list has 0 surviving candidates, so the call
fails with the count-mismatch error. -/
theorem c5_witness :
    detect_rune_arrows [] = some (Except.error RuneError.countMismatch) :=
  c5_rune_arrow_filtering.2.1 [] (by decide)

/-! ## Minimap portals (`detect_minimap_portals`) and the player health bar
(`detect_player_health_bar`)

For the portals, the non-zero points of the thresholded score map are the
input (each lies within the score map, whose size is
`(image - template + 1)` in each dimension); for the health bar, the two
matched template rectangles are the input. -/

/-- The portal rectangle built from one non-zero score-map point: the
top-left is the point pushed up-left by at most 5 pixels (clamped at 0), and
the template size is padded by the clamped amounts. -/
def portal_rect (template_size : Size) (point : Point) : Rect :=
  let size : ℤ := 5
  let x := max (point.x - size) 0
  let xd := point.x - x
  let y := max (point.y - size) 0
  let yd := point.y - y
  ⟨x, y, template_size.width + xd * 2 + (size - xd),
    template_size.height + yd * 2 + (size - yd)⟩

/-- `detect_minimap_portals` after thresholding: one portal rectangle per
non-zero score-map point. -/
def detect_minimap_portals (template_size : Size) (points : List Point) :
    List Rect :=
  points.map (portal_rect template_size)

/-- The rectangle returned by `detect_player_health_bar` from the matched
`HP_START` and `HP_END` rectangles: it runs from the right edge of `hp_start`
to the left edge of `hp_end`, with `hp_start`'s vertical extent. -/
def health_bar_rect (hp_start hp_end : Rect) : Rect :=
  let hp_start_to_edge_x := hp_start.x + hp_start.width
  ⟨hp_start_to_edge_x, hp_start.y, hp_end.x - hp_start_to_edge_x, hp_start.height⟩

/-- C6 counterexample: against a 100×100 minimap image and a 10×10 portal
template, the valid score-map point `(90, 90)` produces the portal rectangle
`(85, 85, 20, 20)`, which extends to `x = 105 > 100`: the returned rectangle
does not lie within the image it was detected against.  Moreover, when the
`HP_END` template happens to match left of the `HP_START` template, the
health-bar rectangle has negative width. -/
theorem c6_counterexample :
    detect_minimap_portals ⟨10, 10⟩ [⟨90, 90⟩] = [⟨85, 85, 20, 20⟩] ∧
    ((0 : ℤ) ≤ 90 ∧ (90 : ℤ) ≤ 100 - 10) ∧
    ¬ (⟨85, 85, 20, 20⟩ : Rect).insideImage ⟨100, 100⟩ ∧
    (health_bar_rect ⟨50, 10, 20, 5⟩ ⟨10, 10, 5, 5⟩).width = -60 := by
  refine ⟨by decide, by decide, by decide, by decide⟩

/-- C6 amended: every portal rectangle has non-negative top-left coordinates
lying within the image and positive width and height, and it exceeds the
image's right and bottom edges by at most 5 pixels (exact containment in the
image does not hold). -/
theorem c6_amended_portal_bounds (template_size img : Size) (points : List Point)
    (r : Rect) (htw : 1 ≤ template_size.width) (hth : 1 ≤ template_size.height)
    (hpts : ∀ p ∈ points, 0 ≤ p.x ∧ p.x ≤ img.width - template_size.width ∧
      0 ≤ p.y ∧ p.y ≤ img.height - template_size.height)
    (hr : r ∈ detect_minimap_portals template_size points) :
    0 ≤ r.x ∧ 0 ≤ r.y ∧ 0 < r.width ∧ 0 < r.height ∧
    r.x ≤ img.width ∧ r.y ≤ img.height ∧
    r.x + r.width ≤ img.width + 5 ∧ r.y + r.height ≤ img.height + 5 := by
  unfold detect_minimap_portals at hr
  obtain ⟨p, hp, rfl⟩ := List.mem_map.mp hr
  obtain ⟨hx0, hxw, hy0, hyh⟩ := hpts p hp
  unfold portal_rect
  dsimp only
  omega

/-- Witness for C6 amended at the counterexample's inputs. -/
theorem c6_witness :
    0 ≤ (⟨85, 85, 20, 20⟩ : Rect).x ∧ 0 ≤ (⟨85, 85, 20, 20⟩ : Rect).y ∧
    0 < (⟨85, 85, 20, 20⟩ : Rect).width ∧ 0 < (⟨85, 85, 20, 20⟩ : Rect).height ∧
    (⟨85, 85, 20, 20⟩ : Rect).x ≤ (⟨100, 100⟩ : Size).width ∧
    (⟨85, 85, 20, 20⟩ : Rect).y ≤ (⟨100, 100⟩ : Size).height ∧
    (⟨85, 85, 20, 20⟩ : Rect).x + (⟨85, 85, 20, 20⟩ : Rect).width ≤
      (⟨100, 100⟩ : Size).width + 5 ∧
    (⟨85, 85, 20, 20⟩ : Rect).y + (⟨85, 85, 20, 20⟩ : Rect).height ≤
      (⟨100, 100⟩ : Size).height + 5 :=
  c6_amended_portal_bounds ⟨10, 10⟩ ⟨100, 100⟩ [⟨90, 90⟩] ⟨85, 85, 20, 20⟩
    (by decide) (by decide) (by decide) (by decide)

/-! ## Text score-map combination (`extract_text_bboxes`, step 1) -/

/-- `threshold(.., thr, 1.0, THRESH_BINARY)` on a score map: cell value 1
where the score strictly exceeds `thr`, else 0 (the exact 0.0/1.0 the f32 map
holds, read as ℕ since the subsequent `add` converts to `CV_8U`). -/
def threshold_binary (thr : ℚ) (m : List (List ℚ)) : List (List ℕ) :=
  m.map (List.map fun v => if v > thr then 1 else 0)

/-- Elementwise `add(.., .., .., CV_8U)` of two masks. -/
def add_maps (a b : List (List ℕ)) : List (List ℕ) :=
  List.zipWith (fun ra rb => List.zipWith (· + ·) ra rb) a b

/-- `compare(.., 1, CMP_GT)` followed by `set_to(1, mask)`: clamp every value
strictly above 1 down to 1. -/
def clamp_gt_one (m : List (List ℕ)) : List (List ℕ) :=
  m.map (List.map fun v => if v > 1 then 1 else v)

/-- Step 1 of `extract_text_bboxes` as the code performs it: binarize the
text score map at 0.4 (the `text_low_score` Mat), binarize the link score map
at 0.4 in place, add elementwise into an 8-bit map, and clamp values
exceeding 1 down to 1. -/
def combined_score (text_score link_score : List (List ℚ)) : List (List ℕ) :=
  clamp_gt_one (add_maps (threshold_binary (mkRat 2 5) text_score)
    (threshold_binary (mkRat 2 5) link_score))

/-- Step 1 as the claim words it: binarize only the link score map at 0.4,
add it elementwise to the raw (unbinarized) text score map, and clamp every
value exceeding 1 down to 1. -/
def combined_score_claim (text_score link_score : List (List ℚ)) :
    List (List ℚ) :=
  List.zipWith (fun rt rl => List.zipWith
    (fun t l =>
      let s := t + (if l > mkRat 2 5 then 1 else 0)
      if s > 1 then 1 else s) rt rl)
    text_score link_score

/-- C7 counterexample: at a pixel with raw text score `1/2` and link score
`0`, the code's combined mask holds `1` (the text score is binarized at 0.4
before the addition), while the claimed combination holds the raw `1/2`: the
two maps differ, so the combined mask is not built from the raw text score. -/
theorem c7_counterexample :
    combined_score [[mkRat 1 2]] [[0]] = [[1]] ∧
    combined_score_claim [[mkRat 1 2]] [[0]] = [[mkRat 1 2]] ∧
    ¬ ((1 : ℚ) = mkRat 1 2) := by
  refine ⟨by decide, ?_, by decide⟩
  unfold combined_score_claim
  have h0 : ¬ ((0 : ℚ) > mkRat 2 5) := by decide
  have h1 : ¬ ((mkRat 1 2 : ℚ) > 1) := by decide
  simp [h0, h1]

/-- The per-pixel form of the amended step 1, modelled from the amended
claim's words: both scores binarized at 0.4, summed, capped at 1. -/
def combined_pixel_amended (t l : ℚ) : ℕ :=
  min ((if t > mkRat 2 5 then 1 else 0) + (if l > mkRat 2 5 then 1 else 0)) 1

/-- Row-level fusion of the staged mask construction into the per-pixel
amended form. -/
theorem combined_row_amended (rt rl : List ℚ) :
    (List.zipWith (· + ·) (rt.map fun v => if v > mkRat 2 5 then 1 else 0)
        (rl.map fun v => if v > mkRat 2 5 then 1 else 0)).map
      (fun v => if v > 1 then 1 else v) =
    List.zipWith combined_pixel_amended rt rl := by
  induction rt generalizing rl with
  | nil => simp
  | cons t rt ih =>
    cases rl with
    | nil => simp
    | cons l rl =>
      simp only [List.map_cons, List.zipWith_cons_cons, ih]
      congr 1
      unfold combined_pixel_amended
      by_cases h1 : t > mkRat 2 5 <;> by_cases h2 : l > mkRat 2 5 <;>
        simp [h1, h2]

/-- Any value in a clamped mask is 0 or 1... more precisely, any value of a
`clamp_gt_one` output that came from a sum of binarized maps is at most 1;
here stated for the combined mask below via `≤ 1` membership reasoning. -/
theorem clamp_gt_one_mem (m : List (List ℕ)) (row : List ℕ) (v : ℕ)
    (hrow : row ∈ clamp_gt_one m) (hv : v ∈ row) : v ≤ 1 := by
  unfold clamp_gt_one at hrow
  obtain ⟨r, _, rfl⟩ := List.mem_map.mp hrow
  obtain ⟨w, _, rfl⟩ := List.mem_map.mp hv
  split_ifs with h
  · omega
  · omega

/-- C7 amended: the combined binary mask is formed by binarizing BOTH the
text score map and the link score map at 0.4, adding them elementwise, and
clamping every value that exceeds 1 down to 1 — equivalently, each pixel is
`min(binT + binL, 1)` — and the resulting mask is binary (every value is 0 or
1). -/
theorem c7_amended_combined_mask :
    (∀ text link : List (List ℚ), combined_score text link =
      List.zipWith (fun rt rl => List.zipWith combined_pixel_amended rt rl)
        text link) ∧
    (∀ (text link : List (List ℚ)) (row : List ℕ) (v : ℕ),
      row ∈ combined_score text link → v ∈ row → v = 0 ∨ v = 1) := by
  constructor
  · intro text link
    unfold combined_score clamp_gt_one add_maps threshold_binary
    induction text generalizing link with
    | nil => simp
    | cons rt text ih =>
      cases link with
      | nil => simp
      | cons rl link =>
        simp only [List.map_cons, List.zipWith_cons_cons, ih]
        congr 1
        exact combined_row_amended rt rl
  · intro text link row v hrow hv
    have := clamp_gt_one_mem _ row v hrow hv
    omega

/-- Witness for C7 amended: the mask value at a pixel with both scores `1/2`
is 0 or 1 (it is 1). -/
theorem c7_witness : (1 : ℕ) = 0 ∨ (1 : ℕ) = 1 :=
  c7_amended_combined_mask.2 [[mkRat 1 2]] [[mkRat 1 2]] [1] 1 (by decide) (by decide)

/-! ## Text component filtering (`extract_text_bboxes`, step 3) -/

/-- A labeled connected component, reduced to the statistics the filter
reads: its pixel area (`CC_STAT_AREA`) and the maximum raw text score inside
its mask (`min_max_loc` over `text_score` masked by the component). -/
structure TextComponent where
  area : ℤ
  maxScore : ℚ
deriving DecidableEq

/-- The per-component loop of `extract_text_bboxes`: skip a component whose
pixel area is below 10, then skip it if its maximum raw text score is below
0.7, otherwise append the rectangle computed from it.  The geometric
construction of that rectangle (steps 4–7: dilation, min-area box, remapping)
is abstracted as `f`. -/
def extract_text_bboxes_loop (f : TextComponent → Rect) :
    List TextComponent → List Rect
  | [] => []
  | c :: cs =>
    if c.area < 10 then extract_text_bboxes_loop f cs
    else if c.maxScore < mkRat 7 10 then extract_text_bboxes_loop f cs
    else f c :: extract_text_bboxes_loop f cs

/-- C8: a component whose pixel area is below 10, or whose maximum raw text
score is below 0.7, contributes no rectangle: deleting it from the component
list leaves the returned rectangle list unchanged. -/
theorem c8_component_filtering (f : TextComponent → Rect)
    (xs ys : List TextComponent) (c : TextComponent)
    (h : c.area < 10 ∨ c.maxScore < mkRat 7 10) :
    extract_text_bboxes_loop f (xs ++ c :: ys) =
      extract_text_bboxes_loop f (xs ++ ys) := by
  induction xs with
  | nil =>
    simp only [List.nil_append]
    by_cases h1 : c.area < 10
    · simp [extract_text_bboxes_loop, h1]
    · have h2 : c.maxScore < mkRat 7 10 := h.resolve_left h1
      simp [extract_text_bboxes_loop, h1, h2]
  | cons x xs ih =>
    simp only [List.cons_append, extract_text_bboxes_loop, List.append_eq]
    rw [ih]

/-- Witness for C8: a component of area 5 (below 10) is skipped. -/
theorem c8_witness :
    extract_text_bboxes_loop (fun _ => ⟨0, 0, 0, 0⟩) ([] ++ ⟨5, 1⟩ :: []) =
      extract_text_bboxes_loop (fun _ => ⟨0, 0, 0, 0⟩) ([] ++ []) :=
  c8_component_filtering (fun _ => ⟨0, 0, 0, 0⟩) [] [] ⟨5, 1⟩ (Or.inl (by decide))

/-! ## Mob coordinate transform bounds check (`to_minimap_coordinate`) -/

/-- The final gate of `to_minimap_coordinate`: after the affine transform and
vertical flip produce `point`, it is discarded unless it lies within the
playable `bound` (with an additional non-negativity check on the raw
coordinates); the float transform producing `point` is upstream of this gate
and abstracted away. -/
def to_minimap_coordinate_check (point : Point) (bound : Rect) : Option Point :=
  if point.x < 0 ∨ point.y < 0 ∨ point.x < bound.x ∨
      point.x > bound.x + bound.width ∨ point.y < bound.y ∨
      point.y > bound.y + bound.height then
    none
  else
    some point

/-- C9: for a playable bound with non-negative origin (the `Rect` data model
keeps rectangles non-negative), a transformed point lying inside the bound or
exactly on its boundary is accepted and returned unchanged, while a point
strictly outside the bound on any side is discarded. -/
theorem c9_transform_boundary (point : Point) (bound : Rect)
    (hbx : 0 ≤ bound.x) (hby : 0 ≤ bound.y) :
    ((bound.x ≤ point.x ∧ point.x ≤ bound.x + bound.width ∧
      bound.y ≤ point.y ∧ point.y ≤ bound.y + bound.height) →
      to_minimap_coordinate_check point bound = some point) ∧
    ((point.x < bound.x ∨ point.x > bound.x + bound.width ∨
      point.y < bound.y ∨ point.y > bound.y + bound.height) →
      to_minimap_coordinate_check point bound = none) := by
  constructor
  · intro hin
    unfold to_minimap_coordinate_check
    rw [if_neg (by omega)]
  · intro hout
    unfold to_minimap_coordinate_check
    rw [if_pos (by omega)]

/-- Witness for C9: with the bound `(0, 0, 10, 10)`, the point `(10, 3)` on
the right edge is accepted, and `(11, 3)`, one pixel outside, is discarded. -/
theorem c9_witness :
    to_minimap_coordinate_check ⟨10, 3⟩ ⟨0, 0, 10, 10⟩ = some ⟨10, 3⟩ ∧
    to_minimap_coordinate_check ⟨11, 3⟩ ⟨0, 0, 10, 10⟩ = none :=
  ⟨(c9_transform_boundary ⟨10, 3⟩ ⟨0, 0, 10, 10⟩ (by decide) (by decide)).1 (by decide),
    (c9_transform_boundary ⟨11, 3⟩ ⟨0, 0, 10, 10⟩ (by decide) (by decide)).2
      (by decide)⟩

/-! ## The fixed-capacity array (`src/backend/src/array.rs`)

`Array<T, N>` stores `N` option slots plus a length counter.  Failed
assertions and out-of-bounds panics are modelled as `none`.  The Lean type is
named `ArrayN` to avoid clashing with the core `Array`. -/

/-- `Array<T, N>`: the backing `[Option<T>; N]` and the current length. -/
structure ArrayN (T : Type) (N : ℕ) where
  inner : List (Option T)
  len : ℕ
deriving DecidableEq

/-- Shorthand for reading backing slot `j` (out-of-range reads as `none`). -/
def nth {T : Type} (l : List (Option T)) (j : ℕ) : Option T := l.getD j none

/-- `Array::new()`: all slots empty, length 0. -/
def ArrayN.new (T : Type) (N : ℕ) : ArrayN T N := ⟨List.replicate N none, 0⟩

/-- `Array::push`: `assert!(len < N)` (`none` models the panic), write the
value at index `len`, increment `len`. -/
def ArrayN.push {T : Type} {N : ℕ} (a : ArrayN T N) (v : T) : Option (ArrayN T N) :=
  if a.len < N then some ⟨a.inner.set a.len (some v), a.len + 1⟩ else none

/-- One iteration of the removal loop: `inner[i] = inner[i + 1].take()` moves
the value of slot `i + 1` into slot `i` and clears slot `i + 1`. -/
def shiftStep {T : Type} (l : List (Option T)) (i : ℕ) : List (Option T) :=
  (l.set i (nth l (i + 1))).set (i + 1) none

/-- The removal loop `for i in index..N.saturating_sub(1)`, as `k` iterations
starting at index `i`. -/
def shiftLoop {T : Type} : List (Option T) → ℕ → ℕ → List (Option T)
  | l, _, 0 => l
  | l, i, k + 1 => shiftLoop (shiftStep l i) (i + 1) k

/-- `Array::remove`: `assert!(index < len)` (`none` models the panic), clear
slot `index`, decrement `len`, then run the shift loop from `index` up to
`N - 1` exclusive. -/
def ArrayN.remove {T : Type} {N : ℕ} (a : ArrayN T N) (i : ℕ) :
    Option (ArrayN T N) :=
  if i < a.len then
    some ⟨shiftLoop (a.inner.set i none) i (N - 1 - i), a.len - 1⟩
  else
    none

/-- `ArrayIterator::next`, iterated from position `i`: stop once `i ≥ len` or
once a slot holds no value, else yield the value and advance. -/
def iterFrom {T : Type} (inner : List (Option T)) (len : ℕ) (i : ℕ) : List T :=
  if _h : i < len then
    match nth inner i with
    | none => []
    | some v => v :: iterFrom inner len (i + 1)
  else
    []
termination_by len - i
decreasing_by omega

/-- The elements yielded by iteration (`iter` / `IntoIterator` / `Deref`). -/
def ArrayN.toList {T : Type} {N : ℕ} (a : ArrayN T N) : List T :=
  iterFrom a.inner a.len 0

/-- `FromIterator::from_iter`: push every element in order onto a new array. -/
def ArrayN.from_iter {T : Type} (N : ℕ) (l : List T) : Option (ArrayN T N) :=
  l.foldlM (fun a v => a.push v) (ArrayN.new T N)

/-- A single container operation. -/
inductive ArrayOp (T : Type)
  | push (v : T)
  | remove (i : ℕ)

/-- Apply one operation. -/
def ArrayN.step {T : Type} {N : ℕ} (a : ArrayN T N) : ArrayOp T → Option (ArrayN T N)
  | ArrayOp.push v => a.push v
  | ArrayOp.remove i => a.remove i

/-- Apply a sequence of operations, stopping at the first panic. -/
def ArrayN.run {T : Type} {N : ℕ} (a : ArrayN T N) (ops : List (ArrayOp T)) :
    Option (ArrayN T N) :=
  ops.foldlM ArrayN.step a

/-- The container invariant: the backing store has `N` slots, `len ≤ N`,
exactly the first `len` slots hold values, and every later slot is empty. -/
def ArrayN.Inv {T : Type} {N : ℕ} (a : ArrayN T N) : Prop :=
  a.inner.length = N ∧ a.len ≤ N ∧
  (∀ j, j < a.len → (nth a.inner j).isSome = true) ∧
  (∀ j, a.len ≤ j → nth a.inner j = none)

theorem nth_set_ne {T : Type} (l : List (Option T)) (i j : ℕ) (x : Option T)
    (h : i ≠ j) : nth (l.set i x) j = nth l j := by
  unfold nth
  simp [List.getD_eq_getElem?_getD, List.getElem?_set_ne h]

theorem nth_set_self {T : Type} (l : List (Option T)) (i : ℕ) (x : Option T)
    (h : i < l.length) : nth (l.set i x) i = x := by
  unfold nth
  simp [List.getD_eq_getElem?_getD, List.getElem?_set_self h]

theorem nth_of_lt {T : Type} (l : List (Option T)) (j : ℕ) (h : j < l.length) :
    nth l j = l.get ⟨j, h⟩ := by
  unfold nth
  simp [List.getD_eq_getElem?_getD, List.getElem?_eq_getElem h]

theorem nth_of_le {T : Type} (l : List (Option T)) (j : ℕ) (h : l.length ≤ j) :
    nth l j = none := by
  unfold nth
  simp [List.getD_eq_getElem?_getD, List.getElem?_eq_none h]

/-- The removal loop shifts every slot after `i` left by one and leaves an
empty slot at the end. -/
theorem shiftLoop_eq {T : Type} :
    ∀ (k i : ℕ) (l : List (Option T)), i + k + 1 = l.length →
      shiftLoop (l.set i none) i k = l.take i ++ l.drop (i + 1) ++ [none] := by
  intro k
  induction k with
  | zero =>
    intro i l hlen
    unfold shiftLoop
    rw [List.set_eq_take_append_cons_drop, if_pos (by omega)]
    have hdrop : l.drop (i + 1) = [] := List.drop_eq_nil_of_le (by omega)
    rw [hdrop]
    simp
  | succ k ih =>
    intro i l hlen
    have hstep : shiftStep (l.set i none) i =
        (l.set i (nth l (i + 1))).set (i + 1) none := by
      unfold shiftStep
      rw [nth_set_ne l i (i + 1) none (by omega), List.set_set]
    have hunfold : shiftLoop (l.set i none) i (k + 1) =
        shiftLoop (shiftStep (l.set i none) i) (i + 1) k := rfl
    have hlen' : (i + 1) + k + 1 = (l.set i (nth l (i + 1))).length := by
      rw [List.length_set]; omega
    rw [hunfold, hstep, ih (i + 1) (l.set i (nth l (i + 1))) hlen']
    have hi1 : i + 1 < l.length := by omega
    have hset : l.set i (nth l (i + 1)) =
        l.take i ++ nth l (i + 1) :: l.drop (i + 1) := by
      rw [List.set_eq_take_append_cons_drop, if_pos (by omega)]
    have hlt : (l.take i).length = i := by
      rw [List.length_take]; omega
    have htake : (l.set i (nth l (i + 1))).take (i + 1) =
        l.take i ++ [nth l (i + 1)] := by
      rw [hset, List.take_append_eq_append_take, List.take_of_length_le (by omega), hlt]
      have : i + 1 - i = 1 := by omega
      rw [this]
      simp
    have hdropd : (l.set i (nth l (i + 1))).drop (i + 1 + 1) = l.drop (i + 1 + 1) := by
      rw [hset, List.drop_append_eq_append_drop, List.drop_eq_nil_of_le (by omega), hlt]
      have h2 : i + 1 + 1 - i = 1 + 1 := by omega
      rw [h2, List.nil_append, List.drop_succ_cons, List.drop_drop]
    have hdcons : l.drop (i + 1) = nth l (i + 1) :: l.drop (i + 1 + 1) := by
      rw [nth_of_lt l (i + 1) hi1]
      exact List.drop_eq_getElem_cons hi1
    rw [htake, hdropd, hdcons]
    simp

/-- Iteration from position `i`, when all slots in `[i, len)` hold values,
yields exactly those slots' values in order. -/
theorem iterFrom_eq {T : Type} (inner : List (Option T)) :
    ∀ (d i len : ℕ), len = i + d →
      (∀ k, i ≤ k → k < len → (nth inner k).isSome = true) →
      iterFrom inner len i = (List.range' i d).filterMap fun k => nth inner k := by
  intro d
  induction d with
  | zero =>
    intro i len hlen _
    unfold iterFrom
    rw [dif_neg (by omega)]
    simp [List.range']
  | succ d ih =>
    intro i len hlen hsome
    have hs := hsome i (le_refl i) (by omega)
    rcases hv : nth inner i with _ | v
    · rw [hv] at hs; simp at hs
    · have hstep : iterFrom inner len i = v :: iterFrom inner len (i + 1) := by
        conv_lhs => unfold iterFrom
        rw [dif_pos (by omega), hv]
      rw [hstep, ih (i + 1) len (by omega) fun k hk hk' => hsome k (by omega) hk']
      rw [List.range'_succ]
      rw [List.filterMap_cons_some hv]

/-- A `filterMap` over a list on which the function never fails keeps the
list's length. -/
theorem length_filterMap_allSome {α β : Type} (f : α → Option β) :
    ∀ l : List α, (∀ x ∈ l, (f x).isSome = true) →
      (l.filterMap f).length = l.length := by
  intro l
  induction l with
  | nil => intro; simp
  | cons x l ih =>
    intro h
    have hx := h x (List.mem_cons_self x l)
    rcases hv : f x with _ | v
    · rw [hv] at hx; simp at hx
    · rw [List.filterMap_cons_some hv]
      simp only [List.length_cons]
      rw [ih fun y hy => h y (List.mem_cons_of_mem x hy)]

/-- The fresh array satisfies the invariant. -/
theorem new_inv (T : Type) (N : ℕ) : (ArrayN.new T N).Inv := by
  refine ⟨by simp [ArrayN.new], by simp [ArrayN.new], ?_, ?_⟩
  · intro j hj
    simp [ArrayN.new] at hj
  · intro j _
    unfold ArrayN.new nth
    rw [List.getD_eq_getElem?_getD, List.getElem?_replicate]
    split <;> rfl

/-- Under the invariant, iteration reads off the first `len` slots. -/
theorem toList_eq {T : Type} {N : ℕ} (a : ArrayN T N) (h : a.Inv) :
    a.toList = (List.range' 0 a.len).filterMap fun k => nth a.inner k :=
  iterFrom_eq a.inner a.len 0 a.len (by omega) fun k _ hk => h.2.2.1 k hk

/-- Under the invariant, iteration yields exactly `len` elements. -/
theorem toList_length {T : Type} {N : ℕ} (a : ArrayN T N) (h : a.Inv) :
    a.toList.length = a.len := by
  rw [toList_eq a h, length_filterMap_allSome, List.length_range']
  intro k hk
  rw [List.mem_range'_1] at hk
  exact h.2.2.1 k (by omega)

/-- The first `n` all-occupied slots of a backing list are the `some`-images
of the values iteration reads from them. -/
theorem take_eq_map_filterMap {T : Type} (l : List (Option T)) :
    ∀ n : ℕ, n ≤ l.length → (∀ k, k < n → (nth l k).isSome = true) →
      l.take n = ((List.range' 0 n).filterMap fun k => nth l k).map some := by
  intro n
  induction n with
  | zero => intro _ _; simp
  | succ n ih =>
    intro hn hsome
    have hs := hsome n (by omega)
    rcases hv : nth l n with _ | v
    · rw [hv] at hs; simp at hs
    · have hrange : List.range' 0 (n + 1) = List.range' 0 n ++ [n] := by
        have h := @List.range'_concat 1 0 n
        simpa using h
      have hlt : n < l.length := by omega
      have hget : l[n]? = some (some v) := by
        rw [List.getElem?_eq_getElem hlt]
        have h2 := nth_of_lt l n hlt
        rw [hv] at h2
        simp only [List.get_eq_getElem] at h2
        rw [← h2]
      rw [List.take_succ, hrange, List.filterMap_append, List.map_append,
        ih (by omega) fun k hk => hsome k (by omega)]
      congr 1
      rw [List.filterMap_cons_some hv, hget]
      rfl

/-- Under the invariant, the occupied prefix of the backing store is exactly
the iteration output. -/
theorem take_len_eq {T : Type} {N : ℕ} (a : ArrayN T N) (h : a.Inv) :
    a.inner.take a.len = a.toList.map some := by
  rw [toList_eq a h]
  exact take_eq_map_filterMap a.inner a.len
    (by have h1 := h.1; have h2 := h.2.1; omega)
    fun k hk => h.2.2.1 k hk

/-- `push` rejects exactly the full array (the failed `assert!`). -/
theorem push_eq_none_iff {T : Type} {N : ℕ} (a : ArrayN T N) (v : T) (h : a.Inv) :
    a.push v = none ↔ a.len = N := by
  have hle := h.2.1
  unfold ArrayN.push
  split_ifs with hlt
  · constructor
    · intro hc; exact absurd hc (by simp)
    · intro hc; omega
  · constructor
    · intro _; omega
    · intro _; rfl

/-- A successful `push` preserves the invariant, increments `len` and appends
the value to the iteration output. -/
theorem push_some {T : Type} {N : ℕ} (a a' : ArrayN T N) (v : T) (h : a.Inv)
    (hp : a.push v = some a') :
    a'.Inv ∧ a'.len = a.len + 1 ∧ a'.toList = a.toList ++ [v] := by
  obtain ⟨hN, hle, hsome, hnone⟩ := h
  unfold ArrayN.push at hp
  split_ifs at hp with hlt
  · injection hp with hp
    subst hp
    have hlen : a.len < a.inner.length := by omega
    have hinv : (ArrayN.mk (a.inner.set a.len (some v)) (a.len + 1) : ArrayN T N).Inv := by
      refine ⟨by simp [hN], show a.len + 1 ≤ N by omega, ?_, ?_⟩
      · intro j hj
        have hj' : j < a.len + 1 := hj
        by_cases hje : j = a.len
        · subst hje
          rw [nth_set_self _ _ _ hlen]
          rfl
        · rw [nth_set_ne _ _ _ _ fun hh => hje hh.symm]
          exact hsome j (by omega)
      · intro j hj
        have hj' : a.len + 1 ≤ j := hj
        rw [nth_set_ne _ _ _ _ (by omega)]
        exact hnone j (by omega)
    refine ⟨hinv, rfl, ?_⟩
    rw [toList_eq _ hinv, toList_eq _ ⟨hN, hle, hsome, hnone⟩]
    dsimp only
    have hrange : List.range' 0 (a.len + 1) = List.range' 0 a.len ++ [a.len] := by
      have h2 := @List.range'_concat 1 0 a.len
      simpa using h2
    rw [hrange, List.filterMap_append]
    congr 1
    · exact List.filterMap_congr fun k hk => by
        rw [List.mem_range'_1] at hk
        exact nth_set_ne _ _ _ _ (by omega)
    · rw [List.filterMap_cons_some (nth_set_self _ _ _ hlen)]
      rfl

/-- Reading the shifted backing store: slots below `i` are unchanged, slots
from `i` to the second-to-last read the next original slot, the final slot is
empty. -/
theorem nth_removed {T : Type} (l : List (Option T)) (i j : ℕ) (hi : i < l.length) :
    nth (l.take i ++ l.drop (i + 1) ++ [none]) j =
      if j < i then nth l j
      else if j < l.length - 1 then nth l (j + 1)
      else none := by
  have hlt : (l.take i).length = i := by rw [List.length_take]; omega
  have hld : (l.drop (i + 1)).length = l.length - (i + 1) := List.length_drop _ _
  rw [List.append_assoc]
  split_ifs with h1 h2
  · unfold nth
    rw [List.getD_eq_getElem?_getD, List.getD_eq_getElem?_getD,
      List.getElem?_append_left (by omega), List.getElem?_take_of_lt h1]
  · unfold nth
    rw [List.getD_eq_getElem?_getD, List.getD_eq_getElem?_getD,
      List.getElem?_append_right (by omega), hlt,
      List.getElem?_append_left (by omega), List.getElem?_drop]
    have he : i + 1 + (j - i) = j + 1 := by omega
    rw [he]
  · unfold nth
    rw [List.getD_eq_getElem?_getD,
      List.getElem?_append_right (by omega), hlt,
      List.getElem?_append_right (by omega), hld]
    by_cases hj : j = l.length - 1
    · have he : j - i - (l.length - (i + 1)) = 0 := by omega
      rw [he]
      rfl
    · have he : (1 : ℕ) ≤ j - i - (l.length - (i + 1)) := by omega
      rw [List.getElem?_eq_none (by simpa using he)]
      rfl

/-- `remove` rejects exactly the out-of-range indices (the failed `assert!`). -/
theorem remove_eq_none_iff {T : Type} {N : ℕ} (a : ArrayN T N) (i : ℕ) :
    a.remove i = none ↔ a.len ≤ i := by
  unfold ArrayN.remove
  split_ifs with hlt
  · constructor
    · intro hc; exact absurd hc (by simp)
    · intro hc; omega
  · constructor
    · intro _; omega
    · intro _; rfl

/-- A successful `remove` preserves the invariant, decrements `len`, and
deletes the `i`-th element of the iteration output, shifting the later
elements left by one. -/
theorem remove_some {T : Type} {N : ℕ} (a a' : ArrayN T N) (i : ℕ) (h : a.Inv)
    (hr : a.remove i = some a') :
    i < a.len ∧ a'.Inv ∧ a'.len = a.len - 1 ∧
      a'.toList = a.toList.take i ++ a.toList.drop (i + 1) := by
  obtain ⟨hN, hle, hsome, hnone⟩ := h
  unfold ArrayN.remove at hr
  split_ifs at hr with hi
  injection hr with hr
  subst hr
  have hiN : i < N := by omega
  have hL : shiftLoop (a.inner.set i none) i (N - 1 - i) =
      a.inner.take i ++ a.inner.drop (i + 1) ++ [none] :=
    shiftLoop_eq (N - 1 - i) i a.inner (by omega)
  have hLlen : (a.inner.take i ++ a.inner.drop (i + 1) ++ [none]).length = N := by
    simp only [List.length_append, List.length_take, List.length_drop,
      List.length_cons, List.length_nil]
    omega
  have hread : ∀ j, nth (a.inner.take i ++ a.inner.drop (i + 1) ++ [none]) j =
      if j < i then nth a.inner j
      else if j < N - 1 then nth a.inner (j + 1)
      else none := by
    intro j
    rw [nth_removed a.inner i j (by omega), hN]
  have hinv : (ArrayN.mk (a.inner.take i ++ a.inner.drop (i + 1) ++ [none])
      (a.len - 1) : ArrayN T N).Inv := by
    refine ⟨hLlen, show a.len - 1 ≤ N by omega, ?_, ?_⟩
    · intro j hj
      have hj' : j < a.len - 1 := hj
      rw [hread j]
      split_ifs with h1 h2
      · exact hsome j (by omega)
      · exact hsome (j + 1) (by omega)
      · omega
    · intro j hj
      have hj' : a.len - 1 ≤ j := hj
      rw [hread j]
      split_ifs with h1 h2
      · omega
      · exact hnone (j + 1) (by omega)
      · rfl
  rw [hL]
  refine ⟨hi, hinv, rfl, ?_⟩
  rw [toList_eq _ hinv, toList_eq _ ⟨hN, hle, hsome, hnone⟩]
  dsimp only
  have hsplitL : List.range' 0 (a.len - 1) =
      List.range' 0 i ++ List.range' i (a.len - 1 - i) := by
    have h2 := List.range'_append_1 0 i (a.len - 1 - i)
    rw [show a.len - 1 - i + i = a.len - 1 from by omega] at h2
    simpa using h2.symm
  have hsplitR : List.range' 0 a.len =
      List.range' 0 i ++ List.range' i (a.len - i) := by
    have h2 := List.range'_append_1 0 i (a.len - i)
    rw [show a.len - i + i = a.len from by omega] at h2
    simpa using h2.symm
  have hAlen : ((List.range' 0 i).filterMap fun k => nth a.inner k).length = i := by
    rw [length_filterMap_allSome, List.length_range']
    intro k hk
    rw [List.mem_range'_1] at hk
    exact hsome k (by omega)
  rw [hsplitL, hsplitR, List.filterMap_append, List.filterMap_append]
  have htake : ((((List.range' 0 i).filterMap fun k => nth a.inner k) ++
      (List.range' i (a.len - i)).filterMap fun k => nth a.inner k)).take i =
      (List.range' 0 i).filterMap fun k => nth a.inner k := by
    rw [List.take_append_of_le_length (by omega), List.take_of_length_le (by omega)]
  have hw := hsome i (by omega)
  rcases hv : nth a.inner i with _ | w
  · rw [hv] at hw; simp at hw
  · have hdrop : ((((List.range' 0 i).filterMap fun k => nth a.inner k) ++
        (List.range' i (a.len - i)).filterMap fun k => nth a.inner k)).drop (i + 1) =
        (List.range' (i + 1) (a.len - i - 1)).filterMap fun k => nth a.inner k := by
      rw [List.drop_append_eq_append_drop, List.drop_eq_nil_of_le (by omega), hAlen,
        show i + 1 - i = 1 from by omega,
        show a.len - i = (a.len - i - 1) + 1 from by omega, List.range'_succ,
        List.filterMap_cons_some hv]
      simp
    rw [htake, hdrop]
    congr 1
    · refine List.filterMap_congr fun k hk => ?_
      rw [List.mem_range'_1] at hk
      rw [hread k, if_pos (by omega)]
    · have hshift : ((List.range' i (a.len - 1 - i)).filterMap
          fun k => nth (a.inner.take i ++ a.inner.drop (i + 1) ++ [none]) k) =
          (List.range' i (a.len - 1 - i)).filterMap fun k => nth a.inner (k + 1) := by
        refine List.filterMap_congr fun k hk => ?_
        rw [List.mem_range'_1] at hk
        rw [hread k, if_neg (by omega), if_pos (by omega)]
      rw [hshift]
      have hmap := List.map_add_range' 1 i (a.len - 1 - i) 1
      rw [show a.len - i - 1 = a.len - 1 - i from by omega,
        show i + 1 = 1 + i from by omega, ← hmap, List.filterMap_map]
      refine List.filterMap_congr fun k _ => ?_
      simp [Nat.add_comm]

/-- Every successful operation preserves the invariant. -/
theorem step_inv {T : Type} {N : ℕ} (a a' : ArrayN T N) (op : ArrayOp T)
    (h : a.Inv) (hs : a.step op = some a') : a'.Inv := by
  cases op with
  | push v => exact (push_some a a' v h hs).1
  | remove i => exact (remove_some a a' i h hs).2.1

/-- Every successful operation sequence preserves the invariant. -/
theorem run_inv {T : Type} {N : ℕ} :
    ∀ (ops : List (ArrayOp T)) (a a' : ArrayN T N), a.Inv →
      a.run ops = some a' → a'.Inv := by
  intro ops
  induction ops with
  | nil =>
    intro a a' h hr
    unfold ArrayN.run at hr
    rw [List.foldlM_nil] at hr
    injection hr with hr
    rw [← hr]
    exact h
  | cons op ops ih =>
    intro a a' h hr
    unfold ArrayN.run at hr
    rw [List.foldlM_cons] at hr
    rcases hstep : a.step op with _ | a₁
    · rw [hstep] at hr
      exact absurd hr (by simp)
    · rw [hstep] at hr
      exact ih a₁ a' (step_inv a a₁ op h hstep) hr

/-- The fresh array iterates to the empty list. -/
theorem toList_new (T : Type) (N : ℕ) : (ArrayN.new T N).toList = [] := by
  unfold ArrayN.new ArrayN.toList
  unfold iterFrom
  simp

/-- Pushing a list of values in order succeeds as long as it fits, preserves
the invariant and appends the values to the iteration output. -/
theorem from_iter_fold {T : Type} {N : ℕ} :
    ∀ (l : List T) (a : ArrayN T N), a.Inv → a.len + l.length ≤ N →
      ∃ a' : ArrayN T N, l.foldlM (fun b v => b.push v) a = some a' ∧ a'.Inv ∧
        a'.toList = a.toList ++ l := by
  intro l
  induction l with
  | nil =>
    intro a h _
    exact ⟨a, by rw [List.foldlM_nil]; rfl, h, by simp⟩
  | cons v l ih =>
    intro a h hlen
    simp only [List.length_cons] at hlen
    have hlt : a.len < N := by omega
    rcases hp : a.push v with _ | a₁
    · exact absurd ((push_eq_none_iff a v h).mp hp) (by omega)
    · obtain ⟨hinv₁, hlen₁, hto₁⟩ := push_some a a₁ v h hp
      obtain ⟨a', hrun, hinv', hto'⟩ := ih a₁ hinv₁ (by omega)
      refine ⟨a', ?_, hinv', ?_⟩
      · rw [List.foldlM_cons, hp]
        exact hrun
      · rw [hto', hto₁]
        simp

/-- C10: the fixed-capacity array maintains `len ≤ N` with exactly the first
`len` slots occupied (and all later slots empty) across every operation
sequence from `new`, as well as via `from_iter`; `push` appends at index `len`
and rejects exactly a full array; `remove` at a valid index deletes the
element, shifting later elements left by one and decrementing `len`; and
iteration yields exactly the first `len` slots' values in insertion order. -/
theorem c10_array_invariant :
    (∀ (T : Type) (N : ℕ), (ArrayN.new T N).Inv) ∧
    (∀ (T : Type) (N : ℕ) (ops : List (ArrayOp T)) (a' : ArrayN T N),
      (ArrayN.new T N).run ops = some a' → a'.Inv) ∧
    (∀ (T : Type) (N : ℕ) (a : ArrayN T N) (v : T), a.Inv →
      (a.push v = none ↔ a.len = N)) ∧
    (∀ (T : Type) (N : ℕ) (a a' : ArrayN T N) (v : T), a.Inv →
      a.push v = some a' →
      a'.Inv ∧ a'.len = a.len + 1 ∧ a'.toList = a.toList ++ [v]) ∧
    (∀ (T : Type) (N : ℕ) (a : ArrayN T N) (i : ℕ),
      a.remove i = none ↔ a.len ≤ i) ∧
    (∀ (T : Type) (N : ℕ) (a a' : ArrayN T N) (i : ℕ), a.Inv →
      a.remove i = some a' →
      i < a.len ∧ a'.Inv ∧ a'.len = a.len - 1 ∧
        a'.toList = a.toList.take i ++ a.toList.drop (i + 1)) ∧
    (∀ (T : Type) (N : ℕ) (a : ArrayN T N), a.Inv →
      a.toList.length = a.len ∧ a.inner.take a.len = a.toList.map some) ∧
    (∀ (T : Type) (N : ℕ) (l : List T), l.length ≤ N →
      ∃ a : ArrayN T N, ArrayN.from_iter N l = some a ∧ a.Inv ∧ a.toList = l) := by
  refine ⟨new_inv, ?_, ?_, ?_, ?_, ?_, ?_, ?_⟩
  · intro T N ops a' hr
    exact run_inv ops (ArrayN.new T N) a' (new_inv T N) hr
  · intro T N a v h
    exact push_eq_none_iff a v h
  · intro T N a a' v h hp
    exact push_some a a' v h hp
  · intro T N a i
    exact remove_eq_none_iff a i
  · intro T N a a' i h hr
    exact remove_some a a' i h hr
  · intro T N a h
    exact ⟨toList_length a h, take_len_eq a h⟩
  · intro T N l hlen
    obtain ⟨a', hrun, hinv', hto'⟩ :=
      from_iter_fold l (ArrayN.new T N) (new_inv T N)
        (by simp only [ArrayN.new]; omega)
    refine ⟨a', hrun, hinv', ?_⟩
    rw [hto', toList_new]
    simp

/-- Witness for C10: pushing `7` onto a fresh capacity-2 array yields the
array `[some 7, none]` of length 1, which satisfies the invariant and
iterates to `[7]`. -/
theorem c10_witness :
    (ArrayN.mk [some 7, none] 1 : ArrayN ℕ 2).Inv ∧
    (ArrayN.mk [some 7, none] 1 : ArrayN ℕ 2).len = (ArrayN.new ℕ 2).len + 1 ∧
    (ArrayN.mk [some 7, none] 1 : ArrayN ℕ 2).toList =
      (ArrayN.new ℕ 2).toList ++ [7] :=
  c10_array_invariant.2.2.2.1 ℕ 2 (ArrayN.new ℕ 2) ⟨[some 7, none], 1⟩ 7
    (c10_array_invariant.1 ℕ 2) rfl

end MapleBot
